import Mathlib

/-!
Verification of the core logic of the `z-ai-playground` repository:
the streaming chunk accumulator (`utils/client.py`,
`create_streaming_chat_with_tools`), the asynchronous video job poller
(`examples/04_video/text_to_video.py` / `http_examples/video_generation.py`),
the AST-whitelist safe arithmetic evaluator
(`examples/06_capabilities/function_calling.py`, `examples/01_llm/thinking_mode.py`),
and the agent calculator (`examples/08_agents/multi_function_agent.py`).

Python strings are modelled as Lean `String`, Python `None`-able string fields
as `Option String`, Python dicts keyed by integer index as insertion-ordered
association lists, and Python numerics (int/float) as `ℚ` (exact on every
input any claim observes).
-/

set_option autoImplicit false

namespace Zai

/-! ## Streaming chunk accumulator (src/utils/client.py, lines 159-195)

One streamed chunk's `delta` is modelled as a `Fragment`: the optional
`content`, optional `reasoning_content` and the list of tool-call deltas it
carries.  Chunks with no choices / no delta are skipped by the source loop,
which is the same as consuming a fragment with all fields absent. -/

/-- Python truthiness of an optional string: `None` and `""` are falsy. -/
def truthy : Option String → Bool
  | none => false
  | some s => s ≠ ""

/-- `x or ""` applied to an optional string field. -/
def pyStr (o : Option String) : String := o.getD ""

/-- One element of `delta.tool_calls`: `tc.index`, `tc.id`,
`tc.function.name`, `tc.function.arguments` (each of the last three may be
`None`). -/
structure ToolCallDelta where
  index : Nat
  id : Option String
  name : Option String
  arguments : Option String
  deriving Repr, DecidableEq

/-- One streamed `delta`. -/
structure Fragment where
  content : Option String
  reasoning : Option String
  tool_calls : List ToolCallDelta
  deriving Repr, DecidableEq

/-- The per-index accumulated tool call
`{"id": tc.id, "function": {"name": ..., "arguments": ...}}`. -/
structure AssembledToolCall where
  id : Option String
  name : String
  arguments : String
  deriving Repr, DecidableEq

/-- The in-progress assembled response: running `content` and `reasoning`
strings plus the `tool_calls` dict, modelled as an insertion-ordered
association list keyed by the integer index (Python dicts preserve insertion
order; a new key is appended at the end). -/
structure AssembledResponse where
  content : String
  reasoning : String
  tool_calls : List (Nat × AssembledToolCall)
  deriving Repr, DecidableEq

/-- Dict lookup `tool_calls[idx]` / membership `idx in tool_calls`. -/
def lookupTC (m : List (Nat × AssembledToolCall)) (k : Nat) :
    Option AssembledToolCall :=
  (m.find? (fun p => p.1 == k)).map (fun p => p.2)

/-- Processing of a single `tc` in `delta.tool_calls` (client.py 179-193):
an unseen index inserts a fresh entry seeded with `tc.id`,
`tc.function.name or ""` and `tc.function.arguments or ""`; a seen index
only appends a truthy arguments fragment — `id` and `name` are never
touched again. -/
def processDelta (m : List (Nat × AssembledToolCall)) (tc : ToolCallDelta) :
    List (Nat × AssembledToolCall) :=
  match lookupTC m tc.index with
  | none =>
      m ++ [(tc.index, ⟨tc.id, pyStr tc.name, pyStr tc.arguments⟩)]
  | some _ =>
      if truthy tc.arguments then
        m.map (fun p =>
          if p.1 == tc.index then
            (p.1, ⟨p.2.id, p.2.name, p.2.arguments ++ pyStr tc.arguments⟩)
          else p)
      else m

/-- Consuming one fragment (one iteration of the `for chunk in response`
loop body, client.py 163-193): append a truthy `reasoning_content`, append a
truthy `content`, then process each tool-call delta in order. -/
def consume (s : AssembledResponse) (f : Fragment) : AssembledResponse :=
  let s1 :=
    if truthy f.reasoning then
      { s with reasoning := s.reasoning ++ pyStr f.reasoning }
    else s
  let s2 :=
    if truthy f.content then
      { s1 with content := s1.content ++ pyStr f.content }
    else s1
  { s2 with tool_calls := f.tool_calls.foldl processDelta s2.tool_calls }

/-- The whole stream-consumption loop: fold `consume` over the fragment
sequence in arrival order. -/
def foldConsume (s : AssembledResponse) (fs : List Fragment) :
    AssembledResponse :=
  fs.foldl consume s

/-- The initial state `content = ""`, `reasoning = ""`, `tool_calls = {}`. -/
def emptyResponse : AssembledResponse := ⟨"", "", []⟩

/-- A fragment carrying only a content-text delta. -/
def contentFrag (t : String) : Fragment := ⟨some t, none, []⟩

/-- The fragment with every field absent. -/
def emptyFrag : Fragment := ⟨none, none, []⟩

/-! ## Asynchronous video job poller
(src/examples/04_video/text_to_video.py lines 85-128 and
src/http_examples/video_generation.py lines 110-153; both loops are
identical in structure)

```
elapsed = 0
while elapsed < max_wait:
    result = retrieve(video_id)          # one status query
    if result.task_status == "SUCCESS":  # payload = first entry of
        return {...}                     #   video_result, or None if empty
    elif result.task_status == "FAIL":
        return None
    time.sleep(poll_interval)
    elapsed += poll_interval
return {"id": video_id, "status": "pending"}
```

The status sequence is a function from the poll counter to the response of
that query.  The loop is embedded with a fuel parameter (`none` = the fuel
ran out before the loop terminated, which `runPoll` makes unreachable for
positive `poll_interval`); alongside the outcome we record how many status
queries and how many sleeps were performed. -/

/-- One entry of `result.video_result`. -/
structure VideoEntry where
  url : String
  cover_image_url : String
  deriving Repr, DecidableEq

/-- One response of the status endpoint: the raw `task_status` string
(compared with the sentinels `"SUCCESS"` / `"FAIL"`; anything else is
non-terminal) and the `video_result` list. -/
structure StatusResponse where
  task_status : String
  video_result : List VideoEntry
  deriving Repr, DecidableEq

/-- The poller's result: the success dict (id plus optional video/cover
URL taken from the head of `video_result`), `None` on FAIL, or the timeout
dict, which still carries the job id. -/
inductive Outcome where
  | completed (id : String) (video_url cover_url : Option String)
  | failed
  | timedOut (id : String)
  deriving Repr, DecidableEq

/-- Outcome of a poll run together with the number of status queries and
the number of `time.sleep` calls performed. -/
structure PollTrace where
  outcome : Outcome
  polls : Nat
  sleeps : Nat
  deriving Repr, DecidableEq

/-- The polling loop body, fuel-indexed.  `q n` is the response of the
`n`-th status query (0-based); `e`, `p`, `sl` are the current `elapsed`
value, queries performed and sleeps performed. -/
def pollGo (q : Nat → StatusResponse) (id : String) (interval maxWait : Nat) :
    Nat → Nat → Nat → Nat → Option PollTrace
  | 0, _, _, _ => none
  | fuel + 1, e, p, sl =>
    if e < maxWait then
      let r := q p
      if r.task_status = "SUCCESS" then
        some ⟨.completed id ((r.video_result.head?).map VideoEntry.url)
                ((r.video_result.head?).map VideoEntry.cover_image_url),
              p + 1, sl⟩
      else if r.task_status = "FAIL" then
        some ⟨.failed, p + 1, sl⟩
      else
        pollGo q id interval maxWait fuel (e + interval) (p + 1) (sl + 1)
    else
      some ⟨.timedOut id, p, sl⟩

/-- The whole polling phase of `run`: start with `elapsed = 0`.  Fuel
`maxWait + 1` is enough for any `interval ≥ 1` (proved below), so `none`
is returned only in the diverging `interval = 0` case. -/
def runPoll (q : Nat → StatusResponse) (id : String)
    (interval maxWait : Nat) : Option PollTrace :=
  pollGo q id interval maxWait (maxWait + 1) 0 0 0

/-- A status response is non-terminal iff it is neither sentinel. -/
def nonterminal (r : StatusResponse) : Prop :=
  r.task_status ≠ "SUCCESS" ∧ r.task_status ≠ "FAIL"

/-! ## Safe expression evaluator
(src/examples/06_capabilities/function_calling.py lines 96-146, duplicated
in src/examples/01_llm/thinking_mode.py lines 27-72)

The Python AST produced by `ast.parse(expression, mode='eval')` is embedded
as `PyExpr`.  Python numerics (`int`/`float`, with `bool` counting as `int`
via subclassing) are modelled as `ℚ`, which is exact on every value a claim
observes; the one place the rational embedding cannot follow `float`
semantics — `**` with a non-integer exponent — returns a dummy `0` value
(Python returns an approximate float there; no claim depends on it). -/

/-- A Python literal as stored in an `ast.Constant` node. -/
inductive PyConst where
  | num (q : ℚ)
  | bool (b : Bool)
  | str (s : String)
  | pynone
  deriving Repr, DecidableEq

/-- Binary operator node kinds (`ast.Add`, `ast.Sub`, ...).  The last five
exist in Python's grammar but are outside `SAFE_OPERATORS`. -/
inductive BOp where
  | add | sub | mult | div | pow | mod
  | floordiv | bitand | bitor | bitxor | lshift
  deriving Repr, DecidableEq

/-- Unary operator node kinds; `invert` (`~`) and `notOp` (`not`) are
outside `SAFE_OPERATORS`. -/
inductive UOp where
  | uadd | usub | invert | notOp
  deriving Repr, DecidableEq

/-- The embedded Python expression AST.  `expression` is the
`ast.Expression` wrapper returned by `mode='eval'`; `name`, `call`,
`attribute` and `compare` are representative node kinds outside the
evaluator's dispatch (its `else` branch rejects every such node by type
name alone, so their children are carried but never inspected by it). -/
inductive PyExpr where
  | const (c : PyConst)
  | binop (op : BOp) (l r : PyExpr)
  | unaryop (op : UOp) (e : PyExpr)
  | expression (body : PyExpr)
  | name (id : String)
  | call (func : PyExpr) (args : List PyExpr)
  | attribute (obj : PyExpr) (attr : String)
  | compare (l r : PyExpr)

/-- `op_type in SAFE_OPERATORS` for binary operators. -/
def BOp.allowed : BOp → Bool
  | .add | .sub | .mult | .div | .pow | .mod => true
  | _ => false

/-- `op_type in SAFE_OPERATORS` for unary operators. -/
def UOp.allowed : UOp → Bool
  | .uadd | .usub => true
  | _ => false

/-- What `safe_eval_node` can raise: `ValueError` (the three `unsupported*`
shapes, one per `raise` site) or `ZeroDivisionError`. -/
inductive EvalErr where
  | unsupportedConst
  | unsupportedOp
  | unsupportedNode
  | zeroDiv
  deriving Repr, DecidableEq

/-- Whether an `EvalErr` is a `ValueError`, i.e. what the spec calls the
`UnsupportedOperation` kind (as opposed to `ZeroDivisionError`). -/
def EvalErr.isUnsupported : EvalErr → Bool
  | .zeroDiv => false
  | _ => true

/-- Python's `%`: `a - b * floor(a / b)` (result takes the divisor's sign);
`ZeroDivisionError` on a zero divisor. -/
def pyMod (a b : ℚ) : Except EvalErr ℚ :=
  if b = 0 then .error .zeroDiv else .ok (a - b * (⌊a / b⌋ : ℤ))

/-- Python's `**` restricted to the rational embedding: integer exponents
are exact (`0 ** negative` raises `ZeroDivisionError`); a non-integer
exponent produces a float value outside the embedding, returned as a dummy
`0` (evaluation still succeeds, as it does in Python). -/
def pyPow (a b : ℚ) : Except EvalErr ℚ :=
  if b.den = 1 then
    if a = 0 ∧ b.num < 0 then .error .zeroDiv else .ok (a ^ b.num)
  else .ok 0

/-- `SAFE_OPERATORS[op_type](left, right)`. -/
def applyBin : BOp → ℚ → ℚ → Except EvalErr ℚ
  | .add, a, b => .ok (a + b)
  | .sub, a, b => .ok (a - b)
  | .mult, a, b => .ok (a * b)
  | .div, a, b => if b = 0 then .error .zeroDiv else .ok (a / b)
  | .pow, a, b => pyPow a b
  | .mod, a, b => pyMod a b
  | _, _, _ => .error .unsupportedOp

/-- `SAFE_OPERATORS[op_type](operand)` for the two allowed unary ops. -/
def applyUnary : UOp → ℚ → Except EvalErr ℚ
  | .uadd, a => .ok a
  | .usub, a => .ok (-a)
  | _, _ => .error .unsupportedOp

/-- `safe_eval_node` (function_calling.py 110-132): numeric constants pass
(`bool` is an `int` subclass in Python, so `isinstance(value, int)` accepts
it); `BinOp`/`UnaryOp` check the operator against `SAFE_OPERATORS` before
evaluating operands (left before right); `Expression` unwraps; every other
node kind raises `ValueError` immediately. -/
def safeEvalNode : PyExpr → Except EvalErr ℚ
  | .const (.num q) => .ok q
  | .const (.bool b) => .ok (if b then 1 else 0)
  | .const (.str _) => .error .unsupportedConst
  | .const .pynone => .error .unsupportedConst
  | .binop op l r =>
    if op.allowed then do
      let a ← safeEvalNode l
      let b ← safeEvalNode r
      applyBin op a b
    else .error .unsupportedOp
  | .unaryop op e =>
    if op.allowed then do
      let a ← safeEvalNode e
      applyUnary op a
    else .error .unsupportedOp
  | .expression body => safeEvalNode body
  | _ => .error .unsupportedNode

/-- A parsed structure contains a construct outside the allow-list
{add, subtract, multiply, divide, power, modulo, unary plus/minus}
applied to numeric literals: a non-numeric constant, a disallowed
operator, or any node kind other than constants, binary/unary operations
and the `Expression` wrapper. -/
def containsDisallowed : PyExpr → Bool
  | .const (.num _) => false
  | .const (.bool _) => false
  | .const (.str _) => true
  | .const .pynone => true
  | .binop op l r => !op.allowed || containsDisallowed l || containsDisallowed r
  | .unaryop op e => !op.allowed || containsDisallowed e
  | .expression body => containsDisallowed body
  | .name _ => true
  | .call _ _ => true
  | .attribute _ _ => true
  | .compare _ _ => true

/-! ## The expression parser

`ast.parse(expression, mode='eval')` is the Python standard library's
parser — an external collaborator of the repository, modelled here on the
fragment of Python's expression grammar the examples exercise: integer
literals, names, calls, parentheses and the operators
`+ - * / % // **` with Python's precedence and associativity.  Python
keywords are rejected in expression position (`ast.parse("import os",
mode='eval')` raises `SyntaxError`).  Parse failure is `none`,
corresponding to `SyntaxError`. -/

/-- Lexical tokens of the modelled fragment. -/
inductive Tok where
  | num (n : Nat)
  | ident (s : String)
  | plus | minus | star | slash | percent | dstar | dslash
  | lparen | rparen | comma
  deriving Repr, DecidableEq

/-- Lex a run of digits, returning the value and the rest. -/
def lexNum : Nat → List Char → Nat × List Char
  | acc, [] => (acc, [])
  | acc, c :: cs =>
    if c.isDigit then lexNum (acc * 10 + (c.toNat - 48)) cs
    else (acc, c :: cs)

/-- Lex a run of identifier characters. -/
def lexIdent : List Char → List Char → List Char × List Char
  | acc, [] => (acc, [])
  | acc, c :: cs =>
    if c.isAlphanum || c = '_' then lexIdent (acc ++ [c]) cs
    else (acc, c :: cs)

/-- Fuel-indexed tokenizer; an unrecognized character is a lexical error. -/
def tokenizeGo : Nat → List Char → Option (List Tok)
  | 0, _ => none
  | _ + 1, [] => some []
  | f + 1, c :: cs =>
    if c = ' ' ∨ c = '\t' then tokenizeGo f cs
    else if c.isDigit then
      let (n, rest) := lexNum 0 (c :: cs)
      (tokenizeGo f rest).map (fun ts => .num n :: ts)
    else if c.isAlpha ∨ c = '_' then
      let (w, rest) := lexIdent [] (c :: cs)
      (tokenizeGo f rest).map (fun ts => .ident (String.mk w) :: ts)
    else if c = '*' then
      match cs with
      | '*' :: cs' => (tokenizeGo f cs').map (fun ts => .dstar :: ts)
      | _ => (tokenizeGo f cs).map (fun ts => .star :: ts)
    else if c = '/' then
      match cs with
      | '/' :: cs' => (tokenizeGo f cs').map (fun ts => .dslash :: ts)
      | _ => (tokenizeGo f cs).map (fun ts => .slash :: ts)
    else if c = '+' then (tokenizeGo f cs).map (fun ts => .plus :: ts)
    else if c = '-' then (tokenizeGo f cs).map (fun ts => .minus :: ts)
    else if c = '%' then (tokenizeGo f cs).map (fun ts => .percent :: ts)
    else if c = '(' then (tokenizeGo f cs).map (fun ts => .lparen :: ts)
    else if c = ')' then (tokenizeGo f cs).map (fun ts => .rparen :: ts)
    else if c = ',' then (tokenizeGo f cs).map (fun ts => .comma :: ts)
    else none

/-- Tokenize a whole string. -/
def tokenize (s : String) : Option (List Tok) :=
  tokenizeGo (s.length + 1) s.data

/-- Python keywords that are invalid in expression position
(`True`/`False`/`None` lex as constants instead). -/
def pyKeywords : List String :=
  ["and", "or", "not", "if", "else", "elif", "lambda", "for", "while",
   "return", "def", "class", "in", "is", "pass", "raise", "with", "try",
   "except", "finally", "global", "del", "yield", "assert", "break",
   "continue", "nonlocal", "await", "async", "from", "import"]

mutual

/-- `expr ::= term (('+' | '-') term)*`, left-associative. -/
def parseAddE : Nat → List Tok → Option (PyExpr × List Tok)
  | 0, _ => none
  | f + 1, ts => (parseMulE f ts).bind (fun (e, ts1) => parseAddLoop f e ts1)

/-- Loop of `parseAddE`. -/
def parseAddLoop : Nat → PyExpr → List Tok → Option (PyExpr × List Tok)
  | 0, _, _ => none
  | f + 1, e, .plus :: ts =>
    (parseMulE f ts).bind (fun (r, ts1) => parseAddLoop f (.binop .add e r) ts1)
  | f + 1, e, .minus :: ts =>
    (parseMulE f ts).bind (fun (r, ts1) => parseAddLoop f (.binop .sub e r) ts1)
  | _ + 1, e, ts => some (e, ts)

/-- `term ::= factor (('*' | '/' | '%' | '//') factor)*`, left-associative. -/
def parseMulE : Nat → List Tok → Option (PyExpr × List Tok)
  | 0, _ => none
  | f + 1, ts => (parseFactorE f ts).bind (fun (e, ts1) => parseMulLoop f e ts1)

/-- Loop of `parseMulE`. -/
def parseMulLoop : Nat → PyExpr → List Tok → Option (PyExpr × List Tok)
  | 0, _, _ => none
  | f + 1, e, .star :: ts =>
    (parseFactorE f ts).bind (fun (r, ts1) => parseMulLoop f (.binop .mult e r) ts1)
  | f + 1, e, .slash :: ts =>
    (parseFactorE f ts).bind (fun (r, ts1) => parseMulLoop f (.binop .div e r) ts1)
  | f + 1, e, .percent :: ts =>
    (parseFactorE f ts).bind (fun (r, ts1) => parseMulLoop f (.binop .mod e r) ts1)
  | f + 1, e, .dslash :: ts =>
    (parseFactorE f ts).bind (fun (r, ts1) => parseMulLoop f (.binop .floordiv e r) ts1)
  | _ + 1, e, ts => some (e, ts)

/-- `factor ::= ('+' | '-') factor | power` (Python: unary binds looser
than `**` on the left). -/
def parseFactorE : Nat → List Tok → Option (PyExpr × List Tok)
  | 0, _ => none
  | f + 1, .plus :: ts =>
    (parseFactorE f ts).map (fun (e, ts1) => (.unaryop .uadd e, ts1))
  | f + 1, .minus :: ts =>
    (parseFactorE f ts).map (fun (e, ts1) => (.unaryop .usub e, ts1))
  | f + 1, ts => parsePowerE f ts

/-- `power ::= atom_trailer ['**' factor]`, right-associative. -/
def parsePowerE : Nat → List Tok → Option (PyExpr × List Tok)
  | 0, _ => none
  | f + 1, ts =>
    (parseAtomTrail f ts).bind (fun (e, ts1) =>
      match ts1 with
      | .dstar :: ts2 =>
        (parseFactorE f ts2).map (fun (r, ts3) => (.binop .pow e r, ts3))
      | _ => some (e, ts1))

/-- An atom followed by call trailers. -/
def parseAtomTrail : Nat → List Tok → Option (PyExpr × List Tok)
  | 0, _ => none
  | f + 1, ts => (parseAtomE f ts).bind (fun (e, ts1) => parseTrail f e ts1)

/-- Zero or more `(...)` call trailers. -/
def parseTrail : Nat → PyExpr → List Tok → Option (PyExpr × List Tok)
  | 0, _, _ => none
  | f + 1, e, .lparen :: ts =>
    (parseArgsE f ts).bind (fun (args, ts1) => parseTrail f (.call e args) ts1)
  | _ + 1, e, ts => some (e, ts)

/-- Argument list after an opening parenthesis, including the `)`. -/
def parseArgsE : Nat → List Tok → Option (List PyExpr × List Tok)
  | 0, _ => none
  | _ + 1, .rparen :: ts => some ([], ts)
  | f + 1, ts =>
    (parseAddE f ts).bind (fun (a, ts1) => parseArgsLoop f [a] ts1)

/-- Loop of `parseArgsE`. -/
def parseArgsLoop : Nat → List PyExpr → List Tok → Option (List PyExpr × List Tok)
  | 0, _, _ => none
  | f + 1, acc, .comma :: ts =>
    (parseAddE f ts).bind (fun (a, ts1) => parseArgsLoop f (acc ++ [a]) ts1)
  | _ + 1, acc, .rparen :: ts => some (acc, ts)
  | _, _, _ => none

/-- `atom ::= NUMBER | NAME | '(' expr ')'`; `True`/`False`/`None` are
constants, other keywords are a syntax error. -/
def parseAtomE : Nat → List Tok → Option (PyExpr × List Tok)
  | 0, _ => none
  | _ + 1, .num n :: ts => some (.const (.num (mkRat (Int.ofNat n) 1)), ts)
  | _ + 1, .ident s :: ts =>
    if s = "True" then some (.const (.bool true), ts)
    else if s = "False" then some (.const (.bool false), ts)
    else if s = "None" then some (.const .pynone, ts)
    else if s ∈ pyKeywords then none
    else some (.name s, ts)
  | f + 1, .lparen :: ts =>
    (parseAddE f ts).bind (fun (e, ts1) =>
      match ts1 with
      | .rparen :: ts2 => some (e, ts2)
      | _ => none)
  | _, _ => none

end

/-- `ast.parse(s, mode='eval')`: tokenize, parse one expression, require
the input to be exhausted, and wrap the body in the `Expression` node.
`none` corresponds to `SyntaxError`. -/
def pyParseExpr (s : String) : Option PyExpr :=
  (tokenize s).bind (fun toks =>
    (parseAddE (2 * s.length + 16) toks).bind (fun (e, rest) =>
      if rest = [] then some (.expression e) else none))

/-- The failure kinds of the `calculate` tool's error dict:
`SyntaxError` (`"Invalid expression syntax"`), `ValueError`
(the unsupported-operation messages) and `ZeroDivisionError`
(`"Division by zero"`). -/
inductive ErrKind where
  | parseFailure
  | unsupportedOperation
  | divisionByZero
  deriving Repr, DecidableEq

/-- Result of the `calculate` tool: the result dict or an error dict. -/
inductive CalcResult where
  | value (v : ℚ)
  | failure (k : ErrKind)
  deriving Repr, DecidableEq

/-- `calculate` (function_calling.py 96-146): parse with the trusted
parser, evaluate with `safe_eval_node`, and map each exception class to
its error dict. -/
def calculate (s : String) : CalcResult :=
  match pyParseExpr s with
  | none => .failure .parseFailure
  | some tree =>
    match safeEvalNode tree with
    | .ok v => .value v
    | .error .zeroDiv => .failure .divisionByZero
    | .error _ => .failure .unsupportedOperation

/-! ## The multi-function agent's calculator
(src/examples/08_agents/multi_function_agent.py lines 34-49)

This tool does NOT use the AST whitelist: it runs Python `eval` with
`__builtins__` emptied and a namespace of permitted math names
(`sin cos tan sqrt log log10 exp pow abs pi e`), and converts any raised
exception into an error dict.  `eval` on this namespace is embedded on the
fragment the claims observe: rational arithmetic, `sqrt` on perfect
squares, `abs`, two-argument `pow` with integer exponent.  Where Python
would produce an irrational/approximate float (the transcendental
functions, `pi`, `e`, non-exact `sqrt`, fractional exponents) the
embedding returns the `outsideModel` error; no claim depends on those
values, and mapping them to the error dict never manufactures a successful
numeric result that `eval` would not also produce. -/

/-- What evaluation under `eval` can raise in the embedded fragment, plus
the `outsideModel` marker for float results the rational embedding cannot
represent. -/
inductive AgentErr where
  | nameErr (n : String)
  | zeroDiv
  | domainErr
  | arityErr
  | outsideModel
  deriving Repr, DecidableEq

/-- Exact rational square root: `some r` with `r * r = q` when `q` is a
perfect square of a rational, otherwise `none`. -/
def ratSqrtExact (q : ℚ) : Option ℚ :=
  if q.num < 0 then none
  else
    let sn := Nat.sqrt q.num.toNat
    let sd := Nat.sqrt q.den
    if sn * sn = q.num.toNat ∧ sd * sd = q.den then
      some (mkRat (Int.ofNat sn) sd)
    else none

/-- Names bound in the agent's `allowed_names` namespace. -/
def agentNames : List String :=
  ["sin", "cos", "tan", "sqrt", "log", "log10", "exp", "pow", "abs",
   "pi", "e"]

/-- Python `eval` on the agent's restricted namespace, over the embedded
AST.  Arithmetic follows Python semantics exactly on rationals; constructs
whose value leaves the rational embedding return `outsideModel`. -/
def agentEval : PyExpr → Except AgentErr ℚ
  | .const (.num q) => .ok q
  | .const (.bool b) => .ok (if b then 1 else 0)
  | .const (.str _) => .error .outsideModel
  | .const .pynone => .error .outsideModel
  | .binop op l r => do
    let a ← agentEval l
    let b ← agentEval r
    match op with
    | .add => .ok (a + b)
    | .sub => .ok (a - b)
    | .mult => .ok (a * b)
    | .div => if b = 0 then .error .zeroDiv else .ok (a / b)
    | .mod => if b = 0 then .error .zeroDiv else .ok (a - b * (⌊a / b⌋ : ℤ))
    | .floordiv => if b = 0 then .error .zeroDiv else .ok (⌊a / b⌋ : ℤ)
    | .pow =>
      if b.den = 1 then
        if a = 0 ∧ b.num < 0 then .error .zeroDiv else .ok (a ^ b.num)
      else .error .outsideModel
    | _ => .error .outsideModel
  | .unaryop op e => do
    let a ← agentEval e
    match op with
    | .uadd => .ok a
    | .usub => .ok (-a)
    | _ => .error .outsideModel
  | .expression body => agentEval body
  | .name n =>
    if n ∈ agentNames then .error .outsideModel
    else .error (.nameErr n)
  | .call (.name "sqrt") [a] => do
    let v ← agentEval a
    if v < 0 then .error .domainErr
    else
      match ratSqrtExact v with
      | some r => .ok r
      | none => .error .outsideModel
  | .call (.name "abs") [a] => do
    let v ← agentEval a
    .ok |v|
  | .call (.name "pow") [a, b] => do
    let va ← agentEval a
    let vb ← agentEval b
    if vb.den = 1 then
      if va = 0 ∧ vb.num < 0 then .error .zeroDiv else .ok (va ^ vb.num)
    else .error .outsideModel
  | .call (.name f) _ =>
    if f ∈ agentNames then .error .arityErr else .error (.nameErr f)
  | .call _ _ => .error .outsideModel
  | .attribute _ _ => .error .outsideModel
  | .compare _ _ => .error .outsideModel

/-- Result of the agent's `calculate`: the result dict or the error dict
the blanket `except` produces. -/
inductive AgentResult where
  | value (v : ℚ)
  | err
  deriving Repr, DecidableEq

/-- The agent's `calculate`: `eval` the string in the restricted
namespace; any exception (including `SyntaxError` from parsing) becomes an
error dict. -/
def agentCalculate (s : String) : AgentResult :=
  match pyParseExpr s with
  | none => .err
  | some tree =>
    match agentEval tree with
    | .ok v => .value v
    | .error _ => .err

/-! ## Helper lemmas: strings -/

/-- Appending to a non-empty string stays non-empty. -/
theorem str_append_ne_empty (a b : String) (h : a ≠ "") : a ++ b ≠ "" := by
  intro hc
  apply h
  cases a with
  | mk da =>
    cases b with
    | mk db =>
      have hd : da ++ db = [] := congrArg String.data hc
      have h2 : da = [] := (List.append_eq_nil.mp hd).1
      simp [h2]

/-- Consuming a content-only fragment appends its text (an empty text is
skipped by the truthiness check, with the same net effect). -/
theorem consume_contentFrag (s : AssembledResponse) (t : String) :
    consume s (contentFrag t) = { s with content := s.content ++ t } := by
  by_cases h : t = ""
  · subst h
    have he : s.content ++ "" = s.content := String.append_empty _
    simp [consume, contentFrag, truthy, he]
  · simp [consume, contentFrag, truthy, h, pyStr]

/-! ## Helper lemmas: the tool-call accumulation map -/

/-- Folding a list of tool-call deltas into the accumulation map (the
inner `for tc in delta.tool_calls` loop). -/
def dFold (m : List (Nat × AssembledToolCall)) (ds : List ToolCallDelta) :
    List (Nat × AssembledToolCall) :=
  ds.foldl processDelta m

/-- The tool-call maps produced by a fragment sequence (the accumulation
map part of `foldConsume`). -/
def tcFold (m : List (Nat × AssembledToolCall)) (fs : List Fragment) :
    List (Nat × AssembledToolCall) :=
  fs.foldl (fun acc f => dFold acc f.tool_calls) m

theorem consume_tool_calls (s : AssembledResponse) (f : Fragment) :
    (consume s f).tool_calls = dFold s.tool_calls f.tool_calls := by
  simp only [consume, dFold]
  split <;> split <;> rfl

theorem foldConsume_tool_calls (s : AssembledResponse) (fs : List Fragment) :
    (foldConsume s fs).tool_calls = tcFold s.tool_calls fs := by
  induction fs generalizing s with
  | nil => rfl
  | cons f fs ih =>
    show (foldConsume (consume s f) fs).tool_calls = _
    rw [ih, consume_tool_calls]
    rfl

theorem lookupTC_append_other (m : List (Nat × AssembledToolCall))
    (i k : Nat) (v : AssembledToolCall) (h : i ≠ k) :
    lookupTC (m ++ [(i, v)]) k = lookupTC m k := by
  induction m with
  | nil =>
    simp only [lookupTC, List.nil_append, List.find?]
    have : (i == k) = false := by simp [h]
    simp [this]
  | cons p m ih =>
    by_cases hp : p.1 = k
    · simp [lookupTC, List.find?, hp]
    · have hb : (p.1 == k) = false := by simp [hp]
      simpa [lookupTC, List.find?, hb] using ih

theorem lookupTC_append_self (m : List (Nat × AssembledToolCall))
    (i : Nat) (v : AssembledToolCall) (h : lookupTC m i = none) :
    lookupTC (m ++ [(i, v)]) i = some v := by
  induction m with
  | nil => simp [lookupTC, List.find?]
  | cons p m ih =>
    by_cases hp : p.1 = i
    · simp [lookupTC, List.find?, hp] at h
    · have hb : (p.1 == i) = false := by simp [hp]
      simp only [lookupTC, List.find?, hb] at h ⊢
      exact ih h


theorem lookupTC_map_update (m : List (Nat × AssembledToolCall))
    (i k : Nat) (x : String) :
    lookupTC (m.map (fun p =>
        if p.1 == i then (p.1, ⟨p.2.id, p.2.name, p.2.arguments ++ x⟩) else p)) k
      = if k = i then
          (lookupTC m k).map
            (fun c => ⟨c.id, c.name, c.arguments ++ x⟩)
        else lookupTC m k := by
  induction m with
  | nil => by_cases h : k = i <;> simp [lookupTC, h]
  | cons p m ih =>
    simp only [List.map_cons]
    by_cases hpi : p.1 = i
    · by_cases hpk : p.1 = k
      · have hki : k = i := by omega
        simp [lookupTC, List.find?, hpi, hpk, hki]
      · have hb : (p.1 == k) = false := by simp [hpk]
        have hik : (i == k) = false := by
          have : i ≠ k := by omega
          simp [this]
        simp only [lookupTC, List.find?, hpi, beq_self_eq_true, if_true, hb,
          hik, cond_false] at ih ⊢
        exact ih
    · have hbi : (p.1 == i) = false := by simp [hpi]
      by_cases hpk : p.1 = k
      · have hki : ¬ k = i := by omega
        simp [lookupTC, List.find?, hbi, hpk, hki]
      · have hb : (p.1 == k) = false := by simp [hpk]
        simp only [lookupTC, List.find?, hbi, Bool.false_eq_true, if_false,
          hb, cond_false] at ih ⊢
        exact ih

/-- The value at a delta's own index after processing it: a fresh entry on
first sighting, otherwise the old identity fields with the (possibly
empty) arguments fragment appended. -/
theorem lookupTC_processDelta_self (m : List (Nat × AssembledToolCall))
    (tc : ToolCallDelta) :
    lookupTC (processDelta m tc) tc.index =
      some (match lookupTC m tc.index with
            | none => ⟨tc.id, pyStr tc.name, pyStr tc.arguments⟩
            | some cur => ⟨cur.id, cur.name, cur.arguments ++ pyStr tc.arguments⟩) := by
  cases hm : lookupTC m tc.index with
  | none =>
    simp only [processDelta, hm]
    exact lookupTC_append_self m tc.index _ hm
  | some cur =>
    simp only [processDelta, hm]
    by_cases ha : truthy tc.arguments
    · simp only [ha, if_true]
      rw [lookupTC_map_update m tc.index tc.index (pyStr tc.arguments),
        if_pos rfl, hm]
      rfl
    · have hz : pyStr tc.arguments = "" := by
        cases harg : tc.arguments with
        | none => rfl
        | some a =>
          simp only [truthy, harg] at ha
          simp only [pyStr, harg, Option.getD]
          by_contra hne
          exact ha (by simpa using hne)
      simp [ha, hm, hz]

/-- Processing a delta leaves every other index's entry unchanged. -/
theorem lookupTC_processDelta_other (m : List (Nat × AssembledToolCall))
    (tc : ToolCallDelta) (k : Nat) (h : tc.index ≠ k) :
    lookupTC (processDelta m tc) k = lookupTC m k := by
  cases hm : lookupTC m tc.index with
  | none =>
    simp only [processDelta, hm]
    exact lookupTC_append_other m tc.index k _ h
  | some cur =>
    simp only [processDelta, hm]
    by_cases ha : truthy tc.arguments
    · simp only [ha, if_true]
      rw [lookupTC_map_update m tc.index k (pyStr tc.arguments),
        if_neg (by omega)]
    · simp [ha]

/-- A delta-list touching only other indices leaves `k`'s entry unchanged. -/
theorem lookupTC_dFold_other (ds : List ToolCallDelta) (k : Nat)
    (h : ∀ d ∈ ds, d.index ≠ k) :
    ∀ m, lookupTC (dFold m ds) k = lookupTC m k := by
  induction ds with
  | nil => intro m; rfl
  | cons d ds ih =>
    intro m
    have h1 : d.index ≠ k := h d (List.mem_cons_self d ds)
    have h2 : ∀ d' ∈ ds, d'.index ≠ k := fun d' hd' => h d' (List.mem_cons_of_mem d hd')
    show lookupTC (dFold (processDelta m d) ds) k = _
    rw [ih h2, lookupTC_processDelta_other m d k h1]

/-- The entry a delta-list produces at `k` depends only on the entry at
`k` it starts from. -/
theorem lookupTC_dFold_congr (ds : List ToolCallDelta) (k : Nat) :
    ∀ m₁ m₂, lookupTC m₁ k = lookupTC m₂ k →
      lookupTC (dFold m₁ ds) k = lookupTC (dFold m₂ ds) k := by
  induction ds with
  | nil => intro m₁ m₂ h; exact h
  | cons d ds ih =>
    intro m₁ m₂ h
    show lookupTC (dFold (processDelta m₁ d) ds) k
        = lookupTC (dFold (processDelta m₂ d) ds) k
    apply ih
    by_cases hk : d.index = k
    · subst hk
      rw [lookupTC_processDelta_self m₁ d, lookupTC_processDelta_self m₂ d, h]
    · rw [lookupTC_processDelta_other m₁ d k hk,
        lookupTC_processDelta_other m₂ d k hk, h]

/-- Fragment-list version of `lookupTC_dFold_other`. -/
theorem lookupTC_tcFold_other (fs : List Fragment) (k : Nat)
    (h : ∀ f ∈ fs, ∀ d ∈ f.tool_calls, d.index ≠ k) :
    ∀ m, lookupTC (tcFold m fs) k = lookupTC m k := by
  induction fs with
  | nil => intro m; rfl
  | cons f fs ih =>
    intro m
    have h1 := h f (List.mem_cons_self f fs)
    have h2 : ∀ f' ∈ fs, ∀ d ∈ f'.tool_calls, d.index ≠ k :=
      fun f' hf' => h f' (List.mem_cons_of_mem f hf')
    show lookupTC (tcFold (dFold m f.tool_calls) fs) k = _
    rw [ih h2, lookupTC_dFold_other f.tool_calls k h1 m]

/-- Fragment-list version of `lookupTC_dFold_congr`. -/
theorem lookupTC_tcFold_congr (fs : List Fragment) (k : Nat) :
    ∀ m₁ m₂, lookupTC m₁ k = lookupTC m₂ k →
      lookupTC (tcFold m₁ fs) k = lookupTC (tcFold m₂ fs) k := by
  induction fs with
  | nil => intro m₁ m₂ h; exact h
  | cons f fs ih =>
    intro m₁ m₂ h
    exact ih _ _ (lookupTC_dFold_congr f.tool_calls k m₁ m₂ h)

/-- `zs` is an order-preserving interleaving of `xs` and `ys`. -/
inductive Interleave {α : Type} : List α → List α → List α → Prop where
  | nil : Interleave [] [] []
  | left {x : α} {xs ys zs : List α} :
      Interleave xs ys zs → Interleave (x :: xs) ys (x :: zs)
  | right {y : α} {xs ys zs : List α} :
      Interleave xs ys zs → Interleave xs (y :: ys) (y :: zs)

/-- Core of the interleaving claim: feeding an interleaving of an
`i`-addressed and a `j`-addressed fragment sequence produces, at every
index, the same map entry as feeding the first sequence and then the
second. -/
theorem lookupTC_interleave (i j : Nat) (hij : i ≠ j)
    {fsI fsJ fs : List Fragment}
    (hint : Interleave fsI fsJ fs)
    (hI : ∀ f ∈ fsI, ∀ d ∈ f.tool_calls, d.index = i)
    (hJ : ∀ f ∈ fsJ, ∀ d ∈ f.tool_calls, d.index = j) :
    ∀ m k, lookupTC (tcFold m fs) k = lookupTC (tcFold m (fsI ++ fsJ)) k := by
  induction hint with
  | nil => intro m k; rfl
  | @left x xs ys zs h ih =>
    intro m k
    have hI' : ∀ f ∈ xs, ∀ d ∈ f.tool_calls, d.index = i :=
      fun f hf => hI f (List.mem_cons_of_mem x hf)
    show lookupTC (tcFold (dFold m x.tool_calls) zs) k = _
    rw [ih hI' hJ (dFold m x.tool_calls) k]
    rfl
  | @right y xs ys zs h ih =>
    intro m k
    have hy : ∀ d ∈ y.tool_calls, d.index = j := hJ y (List.mem_cons_self y ys)
    have hJ' : ∀ f ∈ ys, ∀ d ∈ f.tool_calls, d.index = j :=
      fun f hf => hJ f (List.mem_cons_of_mem y hf)
    show lookupTC (tcFold (dFold m y.tool_calls) zs) k = _
    rw [ih hI hJ' (dFold m y.tool_calls) k]
    have hsplit : tcFold m (xs ++ y :: ys)
        = tcFold (dFold (tcFold m xs) y.tool_calls) ys := by
      simp only [tcFold, List.foldl_append, List.foldl_cons]
    have hsplit2 : tcFold (dFold m y.tool_calls) (xs ++ ys)
        = tcFold (tcFold (dFold m y.tool_calls) xs) ys := by
      simp only [tcFold, List.foldl_append]
    rw [hsplit, hsplit2]
    apply lookupTC_tcFold_congr
    by_cases hkj : j = k
    · subst hkj
      have hxs : ∀ f ∈ xs, ∀ d ∈ f.tool_calls, d.index ≠ j := by
        intro f hf d hd
        rw [hI f hf d hd]
        omega
      rw [lookupTC_tcFold_other xs j hxs (dFold m y.tool_calls)]
      apply lookupTC_dFold_congr
      rw [lookupTC_tcFold_other xs j hxs m]
    · have hy' : ∀ d ∈ y.tool_calls, d.index ≠ k := by
        intro d hd
        rw [hy d hd]
        omega
      have h1 : lookupTC (tcFold (dFold m y.tool_calls) xs) k
          = lookupTC (tcFold m xs) k :=
        lookupTC_tcFold_congr xs k _ _ (lookupTC_dFold_other y.tool_calls k hy' m)
      have h2 : lookupTC (dFold (tcFold m xs) y.tool_calls) k
          = lookupTC (tcFold m xs) k :=
        lookupTC_dFold_other y.tool_calls k hy' (tcFold m xs)
      rw [h1, h2]

/-! ## Helper lemmas: the polling loop -/

/-- Running `k` non-terminal iterations of the polling loop: each performs
one status query and one sleep and advances `elapsed` by the interval. -/
theorem pollGo_skip (q : Nat → StatusResponse) (id : String) (i m : Nat) :
    ∀ (k f e p sl : Nat),
      (∀ n < k, nonterminal (q (p + n))) →
      (∀ n < k, e + n * i < m) →
      pollGo q id i m (k + f) e p sl
        = pollGo q id i m f (e + k * i) (p + k) (sl + k) := by
  intro k
  induction k with
  | zero => intro f e p sl _ _; simp
  | succ k ih =>
    intro f e p sl hq he
    have hg : e < m := by
      have := he 0 (Nat.succ_pos k)
      simpa using this
    have hnt : nonterminal (q p) := by
      have := hq 0 (Nat.succ_pos k)
      simpa using this
    have hstep : (k + 1) + f = (k + f) + 1 := by omega
    rw [hstep]
    show pollGo q id i m ((k + f) + 1) e p sl = _
    rw [pollGo]
    simp only [if_pos hg, if_neg hnt.1, if_neg hnt.2]
    have h1 : ∀ n < k, nonterminal (q (p + 1 + n)) := by
      intro n hn
      have := hq (n + 1) (by omega)
      simpa [Nat.add_assoc, Nat.add_comm 1 n] using this
    have h2 : ∀ n < k, (e + i) + n * i < m := by
      intro n hn
      have := he (n + 1) (by omega)
      have harith : e + (n + 1) * i = e + i + n * i := by ring
      omega
    rw [ih f (e + i) (p + 1) (sl + 1) h1 h2]
    have e1 : e + i + k * i = e + (k + 1) * i := by ring
    have e2 : p + 1 + k = p + (k + 1) := by omega
    have e3 : sl + 1 + k = sl + (k + 1) := by omega
    rw [e1, e2, e3]

/-- When `elapsed` has reached the deadline the loop exits with the
timeout dict. -/
theorem pollGo_timeout (q : Nat → StatusResponse) (id : String)
    (i m f e p sl : Nat) (h : ¬ e < m) :
    pollGo q id i m (f + 1) e p sl = some ⟨.timedOut id, p, sl⟩ := by
  rw [pollGo]
  simp [h]

/-- Ceiling division facts used for the poll-count bound: with `k` the
number of loop iterations `⌈m / i⌉ = (m + i - 1) / i`, every iteration
index `n < k` still satisfies the loop guard, `k` iterations reach the
deadline, and `k ≤ m`. -/
theorem ceil_poll_facts (i m : Nat) (hi : 0 < i) :
    (∀ n < (m + i - 1) / i, n * i < m) ∧
    m ≤ ((m + i - 1) / i) * i ∧
    (m + i - 1) / i ≤ m := by
  set k := (m + i - 1) / i with hk
  have hdm : i * k + (m + i - 1) % i = m + i - 1 := Nat.div_add_mod (m + i - 1) i
  have hr : (m + i - 1) % i < i := Nat.mod_lt _ hi
  have hik : i * k = k * i := Nat.mul_comm i k
  refine ⟨?_, ?_, ?_⟩
  · intro n hn
    have h1 : (n + 1) * i ≤ k * i := Nat.mul_le_mul_right i (by omega)
    have h2 : (n + 1) * i = n * i + i := by ring
    omega
  · omega
  · by_contra hc
    have hmk : (m + 1) * i ≤ k * i := Nat.mul_le_mul_right i (by omega)
    have hmi : m ≤ m * i := Nat.le_mul_of_pos_right m hi
    have hme : (m + 1) * i = m * i + i := by ring
    omega

/-! ## Helper lemmas: the safe evaluator -/

/-- Every evaluator error is either the `ZeroDivisionError` or a
`ValueError` (the `UnsupportedOperation` kind). -/
theorem evalErr_cases (err : EvalErr) :
    err = .zeroDiv ∨ err.isUnsupported = true := by
  cases err <;> simp [EvalErr.isUnsupported]

/-- An AST containing any disallowed construct never evaluates to a
value. -/
theorem cd_isError :
    ∀ e : PyExpr, containsDisallowed e = true →
      ∃ err, safeEvalNode e = .error err
  | .const (.num _), h => by simp [containsDisallowed] at h
  | .const (.bool _), h => by simp [containsDisallowed] at h
  | .const (.str s), _ => ⟨.unsupportedConst, rfl⟩
  | .const .pynone, _ => ⟨.unsupportedConst, rfl⟩
  | .binop op l r, h => by
    by_cases hop : op.allowed
    · have hlr : containsDisallowed l = true ∨ containsDisallowed r = true := by
        simp [containsDisallowed, hop] at h
        tauto
      rw [safeEvalNode, if_pos hop]
      rcases hlr with hl | hr
      · obtain ⟨errl, hel⟩ := cd_isError l hl
        exact ⟨errl, by rw [hel]; rfl⟩
      · cases hel : safeEvalNode l with
        | error errl => exact ⟨errl, rfl⟩
        | ok a =>
          obtain ⟨errr, her⟩ := cd_isError r hr
          exact ⟨errr, by rw [her]; rfl⟩
    · exact ⟨.unsupportedOp, by rw [safeEvalNode, if_neg hop]⟩
  | .unaryop op e, h => by
    by_cases hop : op.allowed
    · have he : containsDisallowed e = true := by
        simpa [containsDisallowed, hop] using h
      obtain ⟨err, hee⟩ := cd_isError e he
      rw [safeEvalNode, if_pos hop]
      exact ⟨err, by rw [hee]; rfl⟩
    · exact ⟨.unsupportedOp, by rw [safeEvalNode, if_neg hop]⟩
  | .expression body, h => by
    have hb : containsDisallowed body = true := h
    obtain ⟨err, he⟩ := cd_isError body hb
    exact ⟨err, by rw [safeEvalNode]; exact he⟩
  | .name _, _ => ⟨.unsupportedNode, rfl⟩
  | .call _ _, _ => ⟨.unsupportedNode, rfl⟩
  | .attribute _ _, _ => ⟨.unsupportedNode, rfl⟩
  | .compare _ _, _ => ⟨.unsupportedNode, rfl⟩

/-! ## Claim theorems -/

/-- C1 (counterexample): a fragment for an already-seen index 0 carrying a
non-empty identifier and function name while the stored identity fields
are still empty does NOT get them recorded — the assembled call keeps
`id = None` and `name = ""`; only the arguments text was appended. -/
theorem late_identity_not_recorded :
    lookupTC (foldConsume emptyResponse
        [⟨none, none, [⟨0, none, none, some "ab"⟩]⟩,
         ⟨none, none, [⟨0, some "late-id", some "late-name", some "cd"⟩]⟩]).tool_calls 0
      = some ⟨none, "", "abcd"⟩ ∧
    (lookupTC (foldConsume emptyResponse
        [⟨none, none, [⟨0, none, none, some "ab"⟩]⟩,
         ⟨none, none, [⟨0, some "late-id", some "late-name", some "cd"⟩]⟩]).tool_calls 0).map
        AssembledToolCall.name ≠ some "late-name" := by
  refine ⟨rfl, ?_⟩
  decide

/-- C1 (amended): the identifier and function name of a tool call are
taken solely from the first fragment that mentions its index; a later
fragment for an already-seen index never modifies them — even when they
are still empty — and only its arguments text (empty if absent) is
appended. -/
theorem identity_first_writer_args_append
    (m : List (Nat × AssembledToolCall)) (tc : ToolCallDelta)
    (cur : AssembledToolCall) (h : lookupTC m tc.index = some cur) :
    lookupTC (processDelta m tc) tc.index
      = some ⟨cur.id, cur.name, cur.arguments ++ pyStr tc.arguments⟩ := by
  rw [lookupTC_processDelta_self m tc, h]

/-- C1 witness: a concrete already-seen index. -/
theorem identity_first_writer_args_append_witness :
    lookupTC (processDelta [(0, ⟨none, "", "ab"⟩)]
        ⟨0, some "late-id", some "late-name", some "cd"⟩) 0
      = some ⟨none, "", "abcd"⟩ :=
  identity_first_writer_args_append [(0, ⟨none, "", "ab"⟩)]
    ⟨0, some "late-id", some "late-name", some "cd"⟩ ⟨none, "", "ab"⟩ rfl

/-- C2: with positive interval and deadline and a status sequence that
never reports a terminal status, the poller performs exactly
`⌈max_wait / poll_interval⌉ = (max_wait + poll_interval - 1) / poll_interval`
status queries (and as many sleeps) and returns the timeout outcome still
carrying the job identifier. -/
theorem poller_timeout_ceil_queries (q : Nat → StatusResponse)
    (id : String) (i m : Nat) (hi : 0 < i) (hm : 0 < m)
    (hq : ∀ n, nonterminal (q n)) :
    runPoll q id i m
      = some ⟨.timedOut id, (m + i - 1) / i, (m + i - 1) / i⟩ := by
  obtain ⟨hA, hB, hC⟩ := ceil_poll_facts i m hi
  set k := (m + i - 1) / i with hk
  have hfuel : m + 1 = k + (m + 1 - k) := by omega
  obtain ⟨f, hf⟩ : ∃ f, m + 1 - k = f + 1 := ⟨m - k, by omega⟩
  show pollGo q id i m (m + 1) 0 0 0 = _
  rw [hfuel, pollGo_skip q id i m k (m + 1 - k) 0 0 0
    (fun n _ => hq (0 + n))
    (by intro n hn; simpa using hA n hn), hf,
    pollGo_timeout q id i m f (0 + k * i) (0 + k) (0 + k) (by omega)]
  simp

/-- C2 witness: interval 10, deadline 25, all-PROCESSING statuses:
3 polls, then timeout carrying the id. -/
theorem poller_timeout_ceil_queries_witness :
    runPoll (fun _ => ⟨"PROCESSING", []⟩) "vid-1" 10 25
      = some ⟨.timedOut "vid-1", 3, 3⟩ :=
  poller_timeout_ceil_queries (fun _ => ⟨"PROCESSING", []⟩) "vid-1" 10 25
    (by decide) (by decide)
    (fun _ => (⟨by decide, by decide⟩ :
      nonterminal (⟨"PROCESSING", []⟩ : StatusResponse)))

/-- C3 (counterexample): the expression `1 / 0 + x` parses to a structure
containing a disallowed `Name` node, yet the evaluator reports the
`DivisionByZero` kind, not `UnsupportedOperation`, because the zero
division in the left operand is evaluated before the disallowed node is
reached. -/
theorem whitelist_rejection_kind_cex :
    (pyParseExpr "1 / 0 + x").map containsDisallowed = some true ∧
    calculate "1 / 0 + x" = .failure .divisionByZero ∧
    calculate "1 / 0 + x" ≠ .failure .unsupportedOperation := by
  refine ⟨rfl, rfl, ?_⟩
  decide

/-- C3 (amended): an expression whose parsed structure contains any
construct outside the
{add, subtract, multiply, divide, power, modulo, unary plus/minus}
allow-list never evaluates to a value: it fails with the
`UnsupportedOperation` (`ValueError`) kind, or with `DivisionByZero` when
a zero divisor in an operand evaluated earlier fails first; the disallowed
node is never silently passed through. -/
theorem disallowed_expression_always_fails (e : PyExpr)
    (h : containsDisallowed e = true) :
    ∃ err, safeEvalNode e = .error err ∧
      (err = .zeroDiv ∨ err.isUnsupported = true) := by
  obtain ⟨err, he⟩ := cd_isError e h
  exact ⟨err, he, evalErr_cases err⟩

/-- C3 witness: a bare name lookup. -/
theorem disallowed_expression_always_fails_witness :
    ∃ err, safeEvalNode (.name "x") = .error err ∧
      (err = .zeroDiv ∨ err.isUnsupported = true) :=
  disallowed_expression_always_fails (.name "x") rfl

/-- C4: consuming a fragment never fails (`consume` is a total function),
a completely empty fragment leaves the state unchanged, and each absent or
empty field is a no-op for the part of the state it would populate. -/
theorem consume_absent_fields_noop (s : AssembledResponse) (f : Fragment) :
    consume s emptyFrag = s ∧
    ((f.content = none ∨ f.content = some "") →
      (consume s f).content = s.content) ∧
    ((f.reasoning = none ∨ f.reasoning = some "") →
      (consume s f).reasoning = s.reasoning) ∧
    (f.tool_calls = [] → (consume s f).tool_calls = s.tool_calls) := by
  refine ⟨rfl, ?_, ?_, ?_⟩
  · rintro (h | h) <;> simp [consume, truthy, h] <;> split <;> rfl
  · rintro (h | h) <;> simp [consume, truthy, h] <;> split <;> rfl
  · intro h
    simp only [consume, h, List.foldl_nil]
    split <;> split <;> rfl

/-- C4 witness: a concrete state and a reasoning-only fragment. -/
theorem consume_absent_fields_noop_witness :
    consume ⟨"c", "r", []⟩ emptyFrag = ⟨"c", "r", []⟩ ∧
    (consume ⟨"c", "r", []⟩ ⟨none, some "t", []⟩).content = "c" ∧
    (consume ⟨"c", "r", []⟩ ⟨none, some "t", []⟩).tool_calls = [] :=
  ⟨(consume_absent_fields_noop ⟨"c", "r", []⟩ ⟨none, some "t", []⟩).1,
   (consume_absent_fields_noop ⟨"c", "r", []⟩ ⟨none, some "t", []⟩).2.1 (Or.inl rfl),
   (consume_absent_fields_noop ⟨"c", "r", []⟩ ⟨none, some "t", []⟩).2.2.2 rfl⟩

/-- C5: the evaluator's concrete cases: `2 + 3 * 4` is `14`,
`(2+3)*4` is `20`, `10 / 0` fails with the `DivisionByZero` kind and
`import os` fails with the `InvalidSyntax` kind (a Python keyword cannot
start an expression). -/
theorem evaluator_concrete_cases :
    calculate "2 + 3 * 4" = .value 14 ∧
    calculate "(2+3)*4" = .value 20 ∧
    calculate "10 / 0" = .failure .divisionByZero ∧
    calculate "import os" = .failure .parseFailure := by
  refine ⟨?_, ?_, ?_, ?_⟩ <;> with_unfolding_all rfl

/-- C6: feeding any interleaving of two fragment subsequences addressed
to two distinct tool-call indices produces, at every index, the same
assembled tool call as feeding all fragments of the first index followed
by all fragments of the second: an index's assembled value depends only
on the within-index order of its own fragments. -/
theorem interleaved_indices_independent (i j : Nat) (hij : i ≠ j)
    (s : AssembledResponse) (fsI fsJ fs : List Fragment)
    (hint : Interleave fsI fsJ fs)
    (hI : ∀ f ∈ fsI, ∀ d ∈ f.tool_calls, d.index = i)
    (hJ : ∀ f ∈ fsJ, ∀ d ∈ f.tool_calls, d.index = j) (k : Nat) :
    lookupTC (foldConsume s fs).tool_calls k
      = lookupTC (foldConsume s (fsI ++ fsJ)).tool_calls k := by
  rw [foldConsume_tool_calls, foldConsume_tool_calls]
  exact lookupTC_interleave i j hij hint hI hJ s.tool_calls k

/-- C6 witness: two index-0 fragments interleaved around an index-1
fragment give index 0 the same assembled value as the sequential order. -/
theorem interleaved_indices_independent_witness :
    lookupTC (foldConsume emptyResponse
        [⟨none, none, [⟨0, some "a0", some "fn0", some "x1"⟩]⟩,
         ⟨none, none, [⟨1, some "b0", some "fn1", some "y1"⟩]⟩,
         ⟨none, none, [⟨0, none, none, some "x2"⟩]⟩]).tool_calls 0
      = lookupTC (foldConsume emptyResponse
          ([⟨none, none, [⟨0, some "a0", some "fn0", some "x1"⟩]⟩,
            ⟨none, none, [⟨0, none, none, some "x2"⟩]⟩] ++
           [⟨none, none, [⟨1, some "b0", some "fn1", some "y1"⟩]⟩])).tool_calls 0 :=
  interleaved_indices_independent 0 1 (by decide) emptyResponse
    [⟨none, none, [⟨0, some "a0", some "fn0", some "x1"⟩]⟩,
     ⟨none, none, [⟨0, none, none, some "x2"⟩]⟩]
    [⟨none, none, [⟨1, some "b0", some "fn1", some "y1"⟩]⟩]
    [⟨none, none, [⟨0, some "a0", some "fn0", some "x1"⟩]⟩,
     ⟨none, none, [⟨1, some "b0", some "fn1", some "y1"⟩]⟩,
     ⟨none, none, [⟨0, none, none, some "x2"⟩]⟩]
    (.left (.right (.left .nil))) (by decide) (by decide) 0

/-- C7: a status query returning the failure sentinel makes the poller
return the failed outcome at once: after `k` non-terminal queries (and
`k` sleeps) a `FAIL` response yields exactly `k + 1` queries and no
further sleep. -/
theorem poller_fail_is_immediate (q : Nat → StatusResponse) (id : String)
    (i m k : Nat) (hi : 0 < i) (hpre : ∀ n < k, nonterminal (q n))
    (hk : k * i < m) (hf : (q k).task_status = "FAIL") :
    runPoll q id i m = some ⟨.failed, k + 1, k⟩ := by
  have hle : ∀ n < k, n * i < m := by
    intro n hn
    have h1 : n * i ≤ k * i := Nat.mul_le_mul_right i (le_of_lt hn)
    omega
  have hkm : k ≤ m := by
    have h1 : k * 1 ≤ k * i := Nat.mul_le_mul_left k hi
    have h2 : k * 1 = k := by ring
    omega
  have hfuel : m + 1 = k + (m + 1 - k) := by omega
  obtain ⟨f, hfe⟩ : ∃ f, m + 1 - k = f + 1 := ⟨m - k, by omega⟩
  show pollGo q id i m (m + 1) 0 0 0 = _
  rw [hfuel, pollGo_skip q id i m k (m + 1 - k) 0 0 0
    (fun n hn => hpre (0 + n) (by omega))
    (by intro n hn; simpa using hle n hn), hfe, pollGo]
  have hns : ¬ ((q k).task_status = "SUCCESS") := by
    rw [hf]
    decide
  simp [hk, hns, hf]

/-- C7 witness: the very first query fails. -/
theorem poller_fail_is_immediate_witness :
    runPoll (fun _ => ⟨"FAIL", []⟩) "vid-2" 10 300
      = some ⟨.failed, 1, 0⟩ :=
  poller_fail_is_immediate (fun _ => ⟨"FAIL", []⟩) "vid-2" 10 300 0
    (by decide) (fun n hn => absurd hn (Nat.not_lt_zero n)) (by decide) rfl

/-- C8: a status query reporting the success sentinel with an empty
`video_result` list makes the poller return the success outcome with both
the media URL and the thumbnail URL absent — an empty result list is
"succeeded with no payload", never an error. -/
theorem poller_success_empty_payload (q : Nat → StatusResponse)
    (id : String) (i m k : Nat) (hi : 0 < i)
    (hpre : ∀ n < k, nonterminal (q n)) (hk : k * i < m)
    (hs : (q k).task_status = "SUCCESS") (he : (q k).video_result = []) :
    runPoll q id i m = some ⟨.completed id none none, k + 1, k⟩ := by
  have hle : ∀ n < k, n * i < m := by
    intro n hn
    have h1 : n * i ≤ k * i := Nat.mul_le_mul_right i (le_of_lt hn)
    omega
  have hkm : k ≤ m := by
    have h1 : k * 1 ≤ k * i := Nat.mul_le_mul_left k hi
    have h2 : k * 1 = k := by ring
    omega
  have hfuel : m + 1 = k + (m + 1 - k) := by omega
  obtain ⟨f, hfe⟩ : ∃ f, m + 1 - k = f + 1 := ⟨m - k, by omega⟩
  show pollGo q id i m (m + 1) 0 0 0 = _
  rw [hfuel, pollGo_skip q id i m k (m + 1 - k) 0 0 0
    (fun n hn => hpre (0 + n) (by omega))
    (by intro n hn; simpa using hle n hn), hfe, pollGo]
  simp [hk, hs, he]

/-- C8 witness: the very first query succeeds with an empty result list. -/
theorem poller_success_empty_payload_witness :
    runPoll (fun _ => ⟨"SUCCESS", []⟩) "vid-3" 10 300
      = some ⟨.completed "vid-3" none none, 1, 0⟩ :=
  poller_success_empty_payload (fun _ => ⟨"SUCCESS", []⟩) "vid-3" 10 300 0
    (by decide) (fun n hn => absurd hn (Nat.not_lt_zero n)) (by decide)
    rfl rfl

/-- C9: splitting one content-only fragment's text delta into two
consecutive content-only fragments whose deltas concatenate to the
original text leaves the final `AssembledResponse` identical. -/
theorem split_content_delta_equiv (s : AssembledResponse)
    (pre post : List Fragment) (t1 t2 : String) :
    foldConsume s (pre ++ contentFrag (t1 ++ t2) :: post)
      = foldConsume s (pre ++ contentFrag t1 :: contentFrag t2 :: post) := by
  simp only [foldConsume, List.foldl_append, List.foldl_cons]
  congr 1
  rw [consume_contentFrag, consume_contentFrag, consume_contentFrag]
  simp [String.append_assoc]

/-- C10: the multi-function agent's calculator is NOT an AST-whitelist
evaluator: `sqrt(16) + 5 * 2` parses to a structure containing a `Call`
node outside the arithmetic allow-list, yet the agent's `eval`-based tool
returns the numeric result `14` instead of an unsupported-operation
failure. -/
theorem agent_calculator_accepts_nonwhitelisted :
    (pyParseExpr "sqrt(16) + 5 * 2").map containsDisallowed = some true ∧
    agentCalculate "sqrt(16) + 5 * 2" = .value 14 := by
  refine ⟨?_, ?_⟩ <;> with_unfolding_all rfl

end Zai
